import Mathlib

/-!
Verification of the nekkus-vpn control plane against its specification.

The Go sources are shallowly embedded: pure string manipulation is
translated to Lean functions on `String`/`List Char`, the stateful
`Engine` (internal/vpn/engine.go) becomes explicit state passing over an
`EngineState` record, and the fallible steps of `Connect` (store lookup,
config generation, file write, binary lookup, spawn, readiness gate) are
driven by an explicit environment record describing the outcome of each
external interaction.  Side effects (config-file writes and removals,
child-process signals, the system-proxy toggle) are recorded as an
explicit event trace so that ordering and cleanup claims can be stated.
-/

deriving instance DecidableEq for Except

namespace Nekkus

/-! ## Engine state machine (internal/vpn/engine.go) -/

/-- `Status` mirrors the `Status` string constants of engine.go. -/
inductive Status where
  | disconnected
  | connecting
  | connected
  | error
deriving DecidableEq, Repr

/-- `ServerNode` mirrors `store.ServerNode` (internal/store/store.go). -/
structure ServerNode where
  id : String
  name : String
  address : String
  country : String
  ping : Int
  uri : String
deriving DecidableEq, Repr

/-- The mutable fields of `vpn.Engine`: `status`, `currentNode` (a nil-able
pointer, hence `Option`), the child process handle (modelled by whether a
live, un-reaped child is attached) and `lastConfigPath` (the Go zero value
`""` means "no config file recorded"). -/
structure EngineState where
  status : Status
  currentNode : Option ServerNode
  processLive : Bool
  lastConfigPath : String
deriving DecidableEq, Repr

/-- `NewEngine`: initial state (status Disconnected, nil node, nil process,
empty config path). -/
def initEngine : EngineState :=
  { status := .disconnected, currentNode := none, processLive := false,
    lastConfigPath := "" }

/-- Observable side effects performed by `Connect` / `Disconnect`, in
program order. -/
inductive Event where
  | writeConfig (path : String)
  | removeConfig (path : String)
  | spawn
  | interruptChild
  | killChild
  | reapChild
  | proxyOn
  | proxyOff
deriving DecidableEq, Repr

/-- Outcomes of the external interactions performed by `Engine.Connect`:
the store lookup (`GetServer`, `none` = error or nil result), config
generation (`generateSingboxConfig`), the temp-config write
(`writeTempConfig`, with the path it creates on success), the binary
lookup (`GetSingBoxStatus().Installed` with non-empty path), `Start`, and
the readiness gate (`waitForProxyPort`). -/
structure ConnectEnv where
  lookup : Option ServerNode
  genOk : Bool
  writeOk : Bool
  cfgPath : String
  binFound : Bool
  startOk : Bool
  readyOk : Bool
deriving DecidableEq, Repr

/-- Result of one engine operation: the post state, the event trace, and
whether the Go method returned a nil error. -/
structure OpResult where
  state : EngineState
  events : List Event
  ok : Bool
deriving DecidableEq, Repr

/-- `Engine.Connect` (engine.go lines 204-263), translated step by step.
It first sets status Connecting, then on each failing step sets status
Error and returns; it never reads or clears `currentNode`, never touches
the previous process handle before overwriting it, and on a readiness
failure kills and reaps the new child without removing the config file.
The `serverID` argument is only consumed by the store lookup and error
messages; the lookup's outcome is given by `env.lookup`. -/
def connect (e : EngineState) (env : ConnectEnv) (serverID : String) : OpResult :=
  let e := { e with status := .connecting }
  match env.lookup with
  | none => { state := { e with status := .error }, events := [], ok := false }
  | some server =>
    if server.uri = "" then
      { state := { e with status := .error }, events := [], ok := false }
    else if !env.genOk then
      { state := { e with status := .error }, events := [], ok := false }
    else if !env.writeOk then
      { state := { e with status := .error }, events := [], ok := false }
    else
      -- writeTempConfig succeeded: the file exists and lastConfigPath is set.
      let e := { e with lastConfigPath := env.cfgPath }
      let written := [Event.writeConfig env.cfgPath]
      if !env.binFound then
        { state := { e with status := .error }, events := written, ok := false }
      else if !env.startOk then
        { state := { e with status := .error }, events := written, ok := false }
      else
        let e := { e with processLive := true }
        if !env.readyOk then
          { state := { e with processLive := false, status := .error },
            events := written ++ [Event.spawn, Event.killChild, Event.reapChild],
            ok := false }
        else
          { state := { e with currentNode := some server, status := .connected },
            events := written ++ [Event.spawn, Event.proxyOn],
            ok := true }

/-- `Engine.Disconnect` (engine.go lines 292-318): clear the system proxy
first, then (if a process is attached) interrupt it, wait up to the
3-second grace period and kill it if it has not exited
(`exitsInGrace = false`), then remove the last config file if one is
recorded, clear `currentNode` and set status Disconnected.  Always
returns nil. -/
def disconnect (e : EngineState) (exitsInGrace : Bool) : OpResult :=
  let stopEvents :=
    if e.processLive then
      [Event.interruptChild] ++
        (if exitsInGrace then [Event.reapChild]
         else [Event.killChild, Event.reapChild])
    else []
  let rmEvents :=
    if e.lastConfigPath ≠ "" then [Event.removeConfig e.lastConfigPath] else []
  { state := { status := .disconnected, currentNode := none,
               processLive := false, lastConfigPath := "" },
    events := [Event.proxyOff] ++ stopEvents ++ rmEvents,
    ok := true }

/-- One control operation of the facade, as invoked by the HTTP layer. -/
inductive EngineStep : EngineState → EngineState → Prop where
  | connect (e : EngineState) (env : ConnectEnv) (serverID : String) :
      EngineStep e (connect e env serverID).state
  | disconnect (e : EngineState) (g : Bool) :
      EngineStep e (disconnect e g).state

/-- States reachable from the fresh engine by any sequence of Connect and
Disconnect calls, each succeeding or failing at any step. -/
inductive Reachable : EngineState → Prop where
  | init : Reachable initEngine
  | step {e e' : EngineState} : Reachable e → EngineStep e e' → Reachable e'

/-- A server with a non-empty URI, used as concrete instantiation. -/
def srvA : ServerNode :=
  { id := "a", name := "A", address := "h", country := "", ping := 0,
    uri := "vless://u@h:443" }

/-- An all-success environment for connecting to `srvA`. -/
def envOkA : ConnectEnv :=
  { lookup := some srvA, genOk := true, writeOk := true, cfgPath := "cfg1",
    binFound := true, startOk := true, readyOk := true }

/-- The engine state after a fully successful `Connect` to `srvA` from the
fresh engine: Connected, with `srvA` current and config file `cfg1`. -/
def engineConnectedA : EngineState := (connect initEngine envOkA srvA.id).state

/-- An environment in which the store lookup fails (e.g. the subscription
was refreshed and the id disappeared between calls). -/
def envLookupFail : ConnectEnv :=
  { lookup := none, genOk := true, writeOk := true, cfgPath := "cfg2",
    binFound := true, startOk := true, readyOk := true }

/-- State after a `Connect` that is issued while Connected and whose store
lookup fails: the code sets status Error without clearing `currentNode`. -/
def engineAfterFailedReconnect : EngineState :=
  (connect engineConnectedA envLookupFail srvA.id).state

/-- Environment in which everything up to the spawn succeeds but the
readiness gate fails (deadline exceeded or child exited early). -/
def envReadyFail : ConnectEnv :=
  { lookup := some srvA, genOk := true, writeOk := true, cfgPath := "cfg3",
    binFound := true, startOk := true, readyOk := false }

/-! ## Subscription fetcher (src/unnamed/part_007, `subscription.Fetch`) -/

/-- `subscription.Fetch`, with the HTTP interaction made explicit: the GET
either fails at the transport level (`transportOk = false`), or returns a
response with `statusCode` whose body reads as `body` (reading can fail,
`readOk = false`).  The Go code errors unless `resp.StatusCode ==
http.StatusOK`, i.e. unless the code is exactly 200. -/
def goFetch (transportOk : Bool) (statusCode : Nat) (readOk : Bool)
    (body : String) : Except String String :=
  if !transportOk then .error "request"
  else if statusCode ≠ 200 then .error ("status " ++ toString statusCode)
  else if !readOk then .error "read body"
  else .ok body

/-! ## Store (internal/store/store.go) -/

/-- `store.Subscription`. -/
structure Subscription where
  id : String
  url : String
  name : String
  servers : List ServerNode
  updatedAt : Int
deriving DecidableEq, Repr

/-- The in-memory subscription list owned by `store.Store`. -/
structure StoreState where
  subscriptions : List Subscription
deriving DecidableEq, Repr

/-- The subscription record built by `Store.AddSubscription` (store.go
lines 178-197): id from wall-clock seconds plus the current list length,
`Servers` nil (modelled as the empty list). -/
def mkSubscription (st : StoreState) (name url : String) (now : Int) :
    Subscription :=
  { id := "sub-" ++ toString now ++ "-" ++ toString st.subscriptions.length,
    name := name, url := url, servers := [], updatedAt := now }

/-- `Store.AddSubscription`: appends the new subscription to the in-memory
list under the lock, then writes the snapshot to disk (outcome `writeOk`).
On a write failure it returns the error without undoing the append. -/
def addSubscription (st : StoreState) (name url : String) (now : Int)
    (writeOk : Bool) : StoreState × Except String Subscription :=
  let sub := mkSubscription st name url now
  let st' : StoreState := { subscriptions := st.subscriptions ++ [sub] }
  if writeOk then (st', .ok sub) else (st', .error "write subscriptions.json")

/-- `Store.GetSubscriptions`: a copy of the in-memory list (empty slice
when there are none). -/
def getSubscriptions (st : StoreState) : List Subscription :=
  st.subscriptions

/-! ## JSON values (the `map[string]any` outbounds of src/unnamed/part_009)

Go maps are unordered, so objects are canonicalised as key-sorted
association lists built by `JObj.insert` (last write wins).  Two objects
are equal exactly when they hold the same fields, which is the
"ignoring field order" comparison of the spec. -/

/-- Lowercasing of an ASCII letter (`unicode.ToLower` restricted to the
ASCII range used by the URI schemes and parameters). -/
def charToLower (c : Char) : Char :=
  if 'A' ≤ c ∧ c ≤ 'Z' then Char.ofNat (c.toNat + 32) else c

/-- `strings.ToLower` (ASCII range). -/
def goToLower (s : String) : String :=
  String.mk (s.data.map charToLower)

/-- Lexicographic comparison of char lists, used only to canonicalise the
(unordered) Go map as a sorted association list. -/
def listCharLt : List Char → List Char → Bool
  | [], [] => false
  | [], _ :: _ => true
  | _ :: _, [] => false
  | a :: as, b :: bs => if a < b then true else if b < a then false else listCharLt as bs

/-- `strings.Split` with a one-character separator. -/
def splitChar (c : Char) : List Char → List (List Char)
  | [] => [[]]
  | x :: rest =>
    if x = c then [] :: splitChar c rest
    else match splitChar c rest with
      | h :: t => (x :: h) :: t
      | [] => [[x]]

/-- `strings.Split (s, c)` for a one-character separator, on strings. -/
def goSplitChar (s : String) (c : Char) : List String :=
  (splitChar c s.data).map String.mk

mutual
inductive JVal where
  | str (v : String)
  | num (v : Int)
  | jbool (v : Bool)
  | arr (vs : JList)
  | obj (fs : JObj)
deriving DecidableEq, Repr
inductive JList where
  | nil
  | cons (hd : JVal) (tl : JList)
deriving DecidableEq, Repr
inductive JObj where
  | nil
  | cons (key : String) (jval : JVal) (tl : JObj)
deriving DecidableEq, Repr
end

/-- Map write `m[k] = v`, keeping keys strictly sorted. -/
def JObj.insert : JObj → String → JVal → JObj
  | .nil, k, v => .cons k v .nil
  | .cons k' v' tl, k, v =>
    if listCharLt k.data k'.data then .cons k v (.cons k' v' tl)
    else if k = k' then .cons k v tl
    else .cons k' v' (JObj.insert tl k v)

/-- Build an object by successive `insert`s. -/
def JObj.ofList (l : List (String × JVal)) : JObj :=
  l.foldl (fun o p => o.insert p.1 p.2) .nil

/-- A JSON array of strings (for `alpn` lists). -/
def JList.ofStrings : List String → JList
  | [] => .nil
  | s :: rest => .cons (.str s) (JList.ofStrings rest)

/-! ## Outbound builder (src/unnamed/part_009) -/

/-- First occurrence split: `splitFirstInfix pat l = some (before, after)`
when `l = before ++ pat ++ after` at the first occurrence of `pat`. -/
def splitFirstInfix (pat : List Char) : List Char → Option (List Char × List Char)
  | [] => if pat = [] then some ([], []) else none
  | c :: rest =>
    if pat.isPrefixOf (c :: rest) then some ([], (c :: rest).drop pat.length)
    else match splitFirstInfix pat rest with
      | some (b, a) => some (c :: b, a)
      | none => none

/-- `strings.Cut(s, sep)` for non-empty `sep`: the parts around the first
occurrence, `none` when `sep` does not occur. -/
def goCut (s sep : String) : Option (String × String) :=
  match splitFirstInfix sep.data s.data with
  | some (b, a) => some (String.mk b, String.mk a)
  | none => none

/-- `strings.Contains`. -/
def goContains (s sub : String) : Bool :=
  decide (sub.data <:+: s.data)

/-- `strings.HasPrefix`. -/
def goHasPrefix (s pre : String) : Bool :=
  pre.data.isPrefixOf s.data

/-- `strings.HasSuffix`. -/
def goHasSuffix (s suff : String) : Bool :=
  suff.data.isSuffixOf s.data

/-- Index of the last occurrence of `c`, or `none`. -/
def lastIdxOf (c : Char) (l : List Char) : Option Nat :=
  match l.reverse.indexOf? c with
  | some i => some (l.length - 1 - i)
  | none => none

/-- Modelled from Go's net.SplitHostPort (standard library, called by the
repo's `splitHostPort`): split at the last colon; a `[...]`-bracketed host
keeps colons inside the brackets; no colon at all is a "missing port"
error; a colon or bracket inside an unbracketed host is an error. -/
def goNetSplitHostPort (s : String) : Except String (String × String) :=
  let cs := s.data
  match lastIdxOf ':' cs with
  | none => .error "missing port in address"
  | some i =>
    let host := cs.take i
    let port := cs.drop (i + 1)
    if host.head? = some '[' then
      if host.getLast? = some ']' then
        .ok (String.mk ((host.drop 1).dropLast), String.mk port)
      else .error "missing ']' in address"
    else if ':' ∈ host ∨ '[' ∈ host ∨ ']' ∈ host then
      .error "too many colons in address"
    else .ok (String.mk host, String.mk port)

/-- Decimal value of a digit list (digits already validated). -/
def digitsToNat (l : List Char) : Nat :=
  l.foldl (fun n c => n * 10 + (c.toNat - 48)) 0

/-- Modelled from Go's strconv.Atoi (overflow aside): an optional sign
followed by at least one decimal digit; anything else is an error. -/
def goAtoi (s : String) : Option Int :=
  match s.data with
  | [] => none
  | '-' :: rest =>
    if rest ≠ [] ∧ rest.all Char.isDigit then some (-(digitsToNat rest : Int)) else none
  | '+' :: rest =>
    if rest ≠ [] ∧ rest.all Char.isDigit then some (digitsToNat rest) else none
  | l => if l.all Char.isDigit then some (digitsToNat l) else none

/-- `splitHostPort` of part_009: fall back to port 0 when the address has
no colon at all, otherwise propagate the error; parse the port with
`Atoi`. -/
def splitHostPort (hostport : String) : Except String (String × Int) :=
  match goNetSplitHostPort hostport with
  | .error e =>
    if hostport ≠ "" ∧ ¬goContains hostport ":" then .ok (hostport, 0)
    else .error e
  | .ok (host, portStr) =>
    match goAtoi portStr with
    | none => .error "invalid port"
    | some p => .ok (host, p)

/-- `url.Values.Get`: the first value set for the key, `""` when unset. -/
def qget (q : List (String × String)) (k : String) : String :=
  match q.find? (fun p => p.1 = k) with
  | some p => p.2
  | none => ""

/-- The components of a parsed `net/url.URL` that the builder reads:
`u.Host` (host:port), `u.User` (`none` for a nil user), and the decoded
query parameters in order. -/
structure GoURL where
  host : String
  user : Option String
  query : List (String × String)
deriving DecidableEq, Repr

/-- `v2rayTransport` of part_009. -/
def v2rayTransport (kind : String) (q : List (String × String)) :
    Except String (Option JObj) :=
  if kind = "" ∨ kind = "tcp" then .ok none
  else if kind = "ws" ∨ kind = "websocket" then
    let ws := JObj.ofList [("type", .str "ws")]
    let ws := if qget q "path" ≠ "" then ws.insert "path" (.str (qget q "path")) else ws
    let ws :=
      if qget q "host" ≠ "" then
        ws.insert "headers" (.obj (JObj.ofList [("Host", .str (qget q "host"))]))
      else ws
    .ok (some ws)
  else if kind = "grpc" then
    let grpc := JObj.ofList [("type", .str "grpc")]
    let grpc :=
      if qget q "serviceName" ≠ "" then
        grpc.insert "service_name" (.str (qget q "serviceName"))
      else grpc
    .ok (some grpc)
  else .error ("unsupported transport: " ++ kind)

/-- `vlessOutbound` of part_009, translated clause by clause. -/
def vlessOutbound (u : GoURL) : Except String JObj := do
  let (host, port₀) ← splitHostPort u.host
  let port := if port₀ = 0 then 443 else port₀
  let uuid := u.user.getD ""
  if uuid = "" then throw "vless: missing uuid"
  let q := u.query
  let security := goToLower (qget q "security")
  let transportType := goToLower (qget q "type")
  let flow := qget q "flow"
  let sni₀ := qget q "sni"
  let sni₁ := if sni₀ = "" then qget q "host" else sni₀
  let sni := if sni₁ = "" ∧ host ≠ "" then host else sni₁
  let out := JObj.ofList
    [("type", .str "vless"), ("server", .str host),
     ("server_port", .num port), ("uuid", .str uuid)]
  let out := if flow ≠ "" then out.insert "flow" (.str flow) else out
  let out :=
    if security = "tls" ∨ security = "reality" then
      let tls := JObj.ofList [("enabled", .jbool true)]
      let tls := if sni ≠ "" then tls.insert "server_name" (.str sni) else tls
      let tls :=
        if qget q "alpn" ≠ "" then
          tls.insert "alpn" (.arr (JList.ofStrings (goSplitChar (qget q "alpn") ',')))
        else tls
      let tls :=
        if security = "reality" then
          let pbk := qget q "pbk"
          let sid := qget q "sid"
          if pbk ≠ "" ∧ sid ≠ "" then
            let tls := tls.insert "reality" (.obj (JObj.ofList
              [("enabled", .jbool true), ("public_key", .str pbk),
               ("short_id", .str sid)]))
            let fp := if qget q "fp" = "" then "chrome" else qget q "fp"
            tls.insert "utls" (.obj (JObj.ofList
              [("enabled", .jbool true), ("fingerprint", .str fp)]))
          else tls
        else tls
      out.insert "tls" (.obj tls)
    else out
  let transport ← v2rayTransport transportType q
  let out :=
    match transport with
    | some t => out.insert "transport" (.obj t)
    | none => out
  return out

/-- The parsed form of the C4 URI
`vless://UUID@h:443?security=reality&pbk=KEY&sid=SID&fp=firefox&sni=x.com&type=ws&path=/p&host=w.com`. -/
def c4url : GoURL :=
  { host := "h:443", user := some "UUID",
    query := [("security", "reality"), ("pbk", "KEY"), ("sid", "SID"),
              ("fp", "firefox"), ("sni", "x.com"), ("type", "ws"),
              ("path", "/p"), ("host", "w.com")] }

/-- The outbound object the spec claims for the C4 URI (its exact field
set, canonicalised): `tls.reality` holds only `public_key`/`short_id` and
`tls.utls` only `fingerprint`. -/
def c4claimedOutbound : JObj := JObj.ofList
  [("type", .str "vless"), ("server", .str "h"), ("server_port", .num 443),
   ("uuid", .str "UUID"),
   ("tls", .obj (JObj.ofList
     [("enabled", .jbool true), ("server_name", .str "x.com"),
      ("reality", .obj (JObj.ofList
        [("public_key", .str "KEY"), ("short_id", .str "SID")])),
      ("utls", .obj (JObj.ofList [("fingerprint", .str "firefox")]))])),
   ("transport", .obj (JObj.ofList
     [("type", .str "ws"), ("path", .str "/p"),
      ("headers", .obj (JObj.ofList [("Host", .str "w.com")]))]))]

/-! ## Subscription content parser (src/unnamed/part_006) -/

/-- Go's `unicode.IsSpace` on the white-space characters that occur in
subscription bodies (ASCII plus NEL and NBSP). -/
def goIsSpace (c : Char) : Bool :=
  c = ' ' ∨ c = '\t' ∨ c = '\n' ∨ c = Char.ofNat 11 ∨ c = Char.ofNat 12 ∨
    c = '\r' ∨ c = Char.ofNat 133 ∨ c = Char.ofNat 160

/-- `strings.TrimSpace`. -/
def goTrimSpace (s : String) : String :=
  String.mk (((s.data.dropWhile goIsSpace).reverse.dropWhile goIsSpace).reverse)

/-- The standard base64 alphabet (encoding/base64 StdEncoding); `none` for
characters outside it.  The URL-safe characters `-` and `_` are not in
this alphabet. -/
def b64Index (c : Char) : Option Nat :=
  if 'A' ≤ c ∧ c ≤ 'Z' then some (c.toNat - 65)
  else if 'a' ≤ c ∧ c ≤ 'z' then some (c.toNat - 97 + 26)
  else if '0' ≤ c ∧ c ≤ '9' then some (c.toNat - 48 + 52)
  else if c = '+' then some 62
  else if c = '/' then some 63
  else none

/-- Reassemble 6-bit groups into bytes; a final group of one index is a
decode error, groups of two or three yield one or two bytes (Go's
handling of a partial final quantum). -/
def b64Bytes : List Nat → Option (List Nat)
  | [] => some []
  | [_] => none
  | [a, b] => some [a * 4 + b / 16]
  | [a, b, c] => some [a * 4 + b / 16, (b % 16) * 16 + c / 4]
  | a :: b :: c :: d :: rest =>
    match b64Bytes rest with
    | some bytes => some ((a * 4 + b / 16) :: ((b % 16) * 16 + c / 4) :: ((c % 4) * 64 + d) :: bytes)
    | none => none

/-- Option-valued map: `some` of the image when every element maps to
`some`, `none` as soon as one element fails (character outside the
alphabet). -/
def mapOpt (f : Char → Option Nat) : List Char → Option (List Nat)
  | [] => some []
  | c :: rest =>
    match f c, mapOpt f rest with
    | some v, some vs => some (v :: vs)
    | _, _ => none

/-- Both Go base64 decoders skip CR and LF characters. -/
def stripCRLF (s : String) : List Char :=
  s.data.filter (fun c => c ≠ '\r' ∧ c ≠ '\n')

/-- Trailing `=` padding removed. -/
def dropTrailingEq (l : List Char) : List Char :=
  (l.reverse.dropWhile (fun c => c = '=')).reverse

/-- Modelled from Go's `base64.StdEncoding.DecodeString`: the padded
standard encoding — total length a multiple of four, at most two `=` and
only at the very end, all other characters from the standard alphabet. -/
def decodeStdPadded (s : String) : Option (List Nat) :=
  let cs := stripCRLF s
  if cs.length % 4 ≠ 0 then none
  else
    let body := dropTrailingEq cs
    if cs.length - body.length > 2 ∨ '=' ∈ body then none
    else
      match mapOpt b64Index body with
      | some idx => b64Bytes idx
      | none => none

/-- Modelled from Go's `base64.RawStdEncoding.DecodeString`: the unpadded
standard encoding — no `=` anywhere, all characters from the standard
alphabet, a single leftover character is an error. -/
def decodeRawStd (s : String) : Option (List Nat) :=
  let cs := stripCRLF s
  if '=' ∈ cs then none
  else
    match mapOpt b64Index cs with
    | some idx => b64Bytes idx
    | none => none

/-- Go's `string(bytes)` conversion on the decoded payload; exact for the
ASCII payloads subscription bodies consist of. -/
def bytesToString (bs : List Nat) : String :=
  String.mk (bs.map Char.ofNat)

/-- `tryDecodeBase64` of part_006: trim, then try `StdEncoding`, then
`RawStdEncoding`; `none` when both fail (the Go function then returns an
error).  An empty trimmed input returns the empty string. -/
def tryDecodeBase64 (input : String) : Option String :=
  let trimmed := goTrimSpace input
  if trimmed = "" then some ""
  else
    match decodeStdPadded trimmed with
    | some bs => some (bytesToString bs)
    | none =>
      match decodeRawStd trimmed with
      | some bs => some (bytesToString bs)
      | none => none

/-- `extractURIList` of part_006: split on newlines, trim each line, keep
the non-empty lines containing `"://"`. -/
def extractURIList (content : String) : List String :=
  ((goSplitChar content '\n').map goTrimSpace).filter
    (fun line => line ≠ "" ∧ goContains line "://")

/-- Hex digit value for percent-decoding. -/
def unhex (c : Char) : Option Nat :=
  if '0' ≤ c ∧ c ≤ '9' then some (c.toNat - 48)
  else if 'a' ≤ c ∧ c ≤ 'f' then some (c.toNat - 97 + 10)
  else if 'A' ≤ c ∧ c ≤ 'F' then some (c.toNat - 65 + 10)
  else none

/-- Modelled from Go's `url.QueryUnescape` (byte-level, exact for ASCII
payloads): `%XX` decodes to the byte `XX`, `+` to a space, a malformed
escape is an error. -/
def queryUnescapeCore : List Char → Option (List Char)
  | [] => some []
  | '%' :: a :: b :: rest =>
    match unhex a, unhex b, queryUnescapeCore rest with
    | some ha, some hb, some r => some (Char.ofNat (16 * ha + hb) :: r)
    | _, _, _ => none
  | '%' :: _ => none
  | '+' :: rest =>
    match queryUnescapeCore rest with
    | some r => some (' ' :: r)
    | none => none
  | c :: rest =>
    match queryUnescapeCore rest with
    | some r => some (c :: r)
    | none => none

/-- `url.QueryUnescape` on strings. -/
def goQueryUnescape (s : String) : Option String :=
  match queryUnescapeCore s.data with
  | some l => some (String.mk l)
  | none => none

/-- Drop the fragment: the part before the first `#` (what `url.Parse`
does before parsing the rest). -/
def stripFragment (raw : String) : String :=
  match goCut raw "#" with
  | some (before, _) => before
  | none => raw

/-- Characters ending the authority component. -/
def endsAuthority (c : Char) : Bool :=
  c = '/' ∨ c = '?'

/-- Modelled from `net/url.Parse` for authority-form URIs
(`scheme://[userinfo@]host[/...][?...][#...]`): the `Host` field, i.e.
the authority after the last `@`; `""` when the URI has no `"://"`. -/
def goURLHost (raw : String) : String :=
  match goCut (stripFragment raw) "://" with
  | none => ""
  | some (_, rest) =>
    let authority := rest.data.takeWhile (fun c => ¬endsAuthority c)
    match lastIdxOf '@' authority with
    | some i => String.mk (authority.drop (i + 1))
    | none => String.mk authority

/-- Modelled from `net/url.Parse` for opaque-form URIs (`scheme:opaque`):
the `Opaque` field — everything after the first `:` up to the query,
empty when the URI contains `"://"` or no `:` at all. -/
def goURLOpaque (raw : String) : String :=
  let noFrag := stripFragment raw
  if goContains noFrag "://" then ""
  else
    match goCut noFrag ":" with
    | some (_, rest) => String.mk (rest.data.takeWhile (fun c => c ≠ '?'))
    | none => ""

/-- `extractNameFromURI` of part_006: URL-decoded fragment when present
and non-empty; otherwise the parsed `Host`; otherwise the `Opaque` part
after its first `@`. -/
def extractNameFromURI (raw : String) : String :=
  let withName :=
    match goCut raw "#" with
    | some (_, frag) =>
      if frag ≠ "" then
        some (match goQueryUnescape frag with
              | some d => d
              | none => goTrimSpace frag)
      else none
    | none => none
  match withName with
  | some n => n
  | none =>
    let host := goURLHost raw
    if host ≠ "" then host
    else
      let opq := goURLOpaque raw
      if opq ≠ "" then
        match opq.data.indexOf? '@' with
        | some i => if i + 1 < opq.data.length then String.mk (opq.data.drop (i + 1)) else opq
        | none => opq
      else ""

/-- `strings.Cut(s, ":")` taking the before part (the whole string when
there is no colon), as used to strip the port. -/
def beforeColon (s : String) : String :=
  match goCut s ":" with
  | some (before, _) => before
  | none => s

/-- `extractHostFromURI` of part_006: the parsed `Host` stripped of its
port; for opaque URIs the part after the first `@`, stripped of its
port. -/
def extractHostFromURI (raw : String) : String :=
  let host := goURLHost raw
  if host ≠ "" then
    if beforeColon host ≠ "" then beforeColon host else host
  else
    let opq := goURLOpaque raw
    if opq ≠ "" then
      let afterAt :=
        match opq.data.indexOf? '@' with
        | some i => String.mk (opq.data.drop (i + 1))
        | none => opq
      if beforeColon afterAt ≠ "" then beforeColon afterAt else afterAt
    else ""

/-- The loop body of `urisToServerNodes`: `i` is the 0-based index of the
current URI, `seen` the lowercase names already emitted. -/
def urisToNodesAux : Nat → List String → List String → List ServerNode
  | _, _, [] => []
  | i, seen, raw :: rest =>
    let name₀ := goTrimSpace (extractNameFromURI raw)
    let name := if name₀ = "" then "server-" ++ toString (i + 1) else name₀
    let key := goToLower name
    if key ∈ seen then urisToNodesAux (i + 1) seen rest
    else
      let addr := extractHostFromURI raw
      let id := if addr ≠ "" then name ++ "-" ++ addr else name
      { id := id, name := name, address := addr, country := "", ping := 0,
        uri := raw } :: urisToNodesAux (i + 1) (key :: seen) rest

/-- `urisToServerNodes` of part_006. -/
def urisToServerNodes (uris : List String) : List ServerNode :=
  urisToNodesAux 0 [] uris

/-- `ParseContent` of part_006: trim; empty body yields no servers; try
the plain URI list; if it is empty, try base64 (both Std and RawStd) and,
when the decode succeeds, re-extract from the decoded text; a failed
decode yields no servers (`nil, nil` in Go). -/
def parseContent (body : String) : List ServerNode :=
  let content := goTrimSpace body
  if content = "" then []
  else
    let uris := extractURIList content
    if uris = [] then
      match tryDecodeBase64 content with
      | none => []
      | some decoded => urisToServerNodes (extractURIList decoded)
    else urisToServerNodes uris

/-- The URL-safe base64 alphabet (`-` for 62, `_` for 63). -/
def b64IndexURL (c : Char) : Option Nat :=
  if c = '-' then some 62
  else if c = '_' then some 63
  else if c = '+' ∨ c = '/' then none
  else b64Index c

/-- Modelled from the spec: the URL-safe, padding-tolerant base64 decode
(`attempt both standard and URL-safe base64 decode (tolerate missing
padding)`) that `tryDecodeBase64` is claimed to perform but does not.
Used only to exhibit that a concrete input is the URL-safe encoding of a
URI list. -/
def specDecodeURLSafe (s : String) : Option String :=
  let cs := dropTrailingEq (stripCRLF s)
  match mapOpt b64IndexURL cs with
  | some idx =>
    match b64Bytes idx with
    | some bs => some (bytesToString bs)
    | none => none
  | none => none

/-- C5 counterexample input: the URL-safe (unpadded) base64 encoding of
`"ss://m:p@h:1#x?"`; it contains `_`, which the standard alphabet
rejects. -/
def c5encoded : String := "c3M6Ly9tOnBAaDoxI3g_"

/-- The decoded plain form of `c5encoded`. -/
def c5plain : String := "ss://m:p@h:1#x?"

/-! ## Safe archive extraction (internal/deps/singbox/installer.go)

File paths are modelled by their `/`-separated segments plus a rooted
flag; Go's lexical path functions (`filepath.Clean`, `Join`, `IsAbs`,
with `/` as separator) become functions on this representation, and a
path-valued string is parsed into it by `parsePath`.  `filepath.Clean`'s
documented rules (drop empty and `.` segments, resolve `..` against a
preceding segment, keep leading `..` on relative paths, drop `..` at an
absolute root) are implemented as a stack pass in `cleanSegs`. -/

structure GoPath where
  abs : Bool
  segs : List String
deriving DecidableEq, Repr

/-- Parse a path string: a leading `/` marks it absolute, the remainder
splits on `/`. -/
def parsePath (s : String) : GoPath :=
  if goHasPrefix s "/" then
    { abs := true, segs := goSplitChar (String.mk (s.data.drop 1)) '/' }
  else { abs := false, segs := goSplitChar s '/' }

/-- One step of the `Clean` stack pass (`stack` holds the output segments
in reverse, head = most recent). -/
def cleanStep (rooted : Bool) (stack : List String) (seg : String) : List String :=
  if seg = "" ∨ seg = "." then stack
  else if seg = ".." then
    match stack with
    | [] => if rooted then [] else [".."]
    | top :: rest => if top = ".." then ".." :: top :: rest else rest
  else seg :: stack

/-- The segments of `filepath.Clean` applied to a path with the given
rooted flag and raw segments. -/
def cleanSegs (rooted : Bool) (l : List String) : List String :=
  (l.foldl (cleanStep rooted) []).reverse

/-- `filepath.Clean` on the path representation. -/
def cleanPath (p : GoPath) : GoPath :=
  { abs := p.abs, segs := cleanSegs p.abs p.segs }

/-- Join segments with `/`. -/
def joinSegs : List String → String
  | [] => ""
  | [s] => s
  | s :: rest => s ++ "/" ++ joinSegs rest

/-- Render a cleaned path the way `filepath.Clean` prints it: `.` for the
empty relative path, `/` for the bare root. -/
def renderPath (p : GoPath) : String :=
  if p.abs then "/" ++ joinSegs p.segs
  else if p.segs = [] then "." else joinSegs p.segs

/-- `safeJoin` of installer.go (lines 147-164), on the path model:
reject the empty cleaned path, absolute paths, and a leading `..`
segment; join with the root and require the result to sit under
`Clean(root)` (string-prefix check against `Clean(root) + "/"`, or exact
equality). -/
def safeJoin (root rel : String) : Except String GoPath :=
  let clean := cleanPath (parsePath rel)
  if clean.segs = [] then .error "empty path"
  else if clean.abs then .error ("absolute path in archive: " ++ rel)
  else if clean.segs.head? = some ".." then .error ("path traversal in archive: " ++ rel)
  else
    let rootP := parsePath root
    let full := cleanPath { abs := rootP.abs, segs := rootP.segs ++ clean.segs }
    let cr := cleanPath rootP
    if goHasPrefix (renderPath full) (renderPath cr ++ "/") ∨ renderPath full = renderPath cr then
      .ok full
    else .error ("path escapes root: " ++ rel)

/-- A zip entry as `extractZip` sees it: its name and whether it is a
directory entry. -/
structure ZipEntry where
  name : String
  isDir : Bool
deriving DecidableEq, Repr

/-- `extractZip` of installer.go (lines 166-207): walk the entries in
order, skipping empty names; a `safeJoin` rejection aborts the walk
before anything of that entry is written; directory entries only create
directories; file entries write to the joined destination.  Returns the
destinations of the files actually written (in order) and the error that
aborted the walk, if any. -/
def extractZip (root : String) : List ZipEntry → List GoPath × Option String
  | [] => ([], none)
  | e :: rest =>
    if e.name = "" then extractZip root rest
    else
      match safeJoin root e.name with
      | .error msg => ([], some msg)
      | .ok dst =>
        if e.isDir then extractZip root rest
        else
          let r := extractZip root rest
          (dst :: r.1, r.2)

/-- A path segment that is a real directory-entry name. -/
def plainSeg (s : String) : Prop :=
  s ≠ "" ∧ s ≠ "." ∧ s ≠ ".."

/-- `p` lies strictly under the extraction root `root`: same rootedness
as `Clean(root)`, and its segments extend `Clean(root)`'s segments by a
non-empty run of plain segments (no `..`, `.` or empty segment). -/
def strictlyUnder (root p : GoPath) : Prop :=
  p.abs = (cleanPath root).abs ∧
  ∃ extra, p.segs = (cleanPath root).segs ++ extra ∧ extra ≠ [] ∧
    ∀ s ∈ extra, plainSeg s

/-! ## Installer asset selection (internal/deps/singbox/installer.go) -/

/-- A release asset of the upstream manifest. -/
structure Asset where
  name : String
  browserDownloadURL : String
deriving DecidableEq, Repr

/-- The release manifest (`tag_name`, `assets`). -/
structure Release where
  tagName : String
  assets : List Asset
deriving DecidableEq, Repr

/-- The platform asset suffix of `selectAsset` (installer.go lines
75-107). -/
def wantSuffix (osName arch : String) : Except String String :=
  if osName = "windows" then .ok ("windows-" ++ arch ++ ".zip")
  else if osName = "linux" then .ok ("linux-" ++ arch ++ ".tar.gz")
  else if osName = "darwin" then .ok ("darwin-" ++ arch ++ ".tar.gz")
  else .error ("unsupported os: " ++ osName)

/-- `selectAsset`: first a non-"legacy" asset matching suffix, the
`sing-box-` prefix and the release version; otherwise the first asset
with the right suffix; otherwise an error. -/
def selectAsset (osName arch : String) (rel : Release) : Except String Asset :=
  match wantSuffix osName arch with
  | .error e => .error e
  | .ok ws =>
    match rel.assets.find? (fun a =>
        !goContains a.name "legacy" && goHasSuffix a.name ws &&
        goHasPrefix a.name "sing-box-" &&
        goContains a.name (String.mk (rel.tagName.data.drop 1))) with
    | some a => .ok a
    | none =>
      match rel.assets.find? (fun a => goHasSuffix a.name ws) with
      | some a => .ok a
      | none => .error ("no asset found for " ++ osName ++ "/" ++ arch)

/-- Outcomes of the installer's own external interactions. -/
structure InstallEnv where
  downloadOk : Bool
  mkTempOk : Bool
deriving DecidableEq, Repr

/-- `InstallLatest` (installer.go lines 267-324) up to and including the
archive-type switch: empty tag is rejected, the asset is selected and
downloaded, a temp extraction dir is made, then only a `.zip` asset
enters `extractZip` — anything else is `unsupported archive type`.  The
stages past the switch (locate the binary, copy, chmod, settings) are
represented by the `.ok` outcome carrying the asset name. -/
def installLatest (osName arch : String) (rel : Release) (env : InstallEnv) :
    Except String String :=
  if rel.tagName = "" then .error "missing tag_name in release response"
  else
    match selectAsset osName arch rel with
    | .error e => .error e
    | .ok a =>
      if !env.downloadOk then .error "download failed"
      else if !env.mkTempOk then .error "mkdir temp failed"
      else if goHasSuffix a.name ".zip" then .ok a.name
      else .error ("unsupported archive type: " ++ a.name)

/-- A concrete linux release manifest carrying the expected tar.gz
asset. -/
def linuxRel : Release :=
  { tagName := "v1.12.0",
    assets := [{ name := "sing-box-1.12.0-linux-amd64.tar.gz",
                 browserDownloadURL := "https://example.invalid/a" }] }

/-- The all-success installer environment. -/
def installEnvOk : InstallEnv := { downloadOk := true, mkTempOk := true }

/-- An all-success environment for a second Connect to the same server
`srvA`, as issued while already Connected. -/
def envReconnectA : ConnectEnv :=
  { lookup := some srvA, genOk := true, writeOk := true, cfgPath := "cfg4",
    binFound := true, startOk := true, readyOk := true }

/-- The `ServerNode` the parser produces for `c5plain`. -/
def c5node : ServerNode :=
  { id := "x?-h", name := "x?", address := "h", country := "", ping := 0,
    uri := "ss://m:p@h:1#x?" }

/-- The outbound the code actually emits for the C4 URI: as claimed, but
with an additional `"enabled": true` inside both `tls.reality` and
`tls.utls`. -/
def c4actualOutbound : JObj := JObj.ofList
  [("type", .str "vless"), ("server", .str "h"), ("server_port", .num 443),
   ("uuid", .str "UUID"),
   ("tls", .obj (JObj.ofList
     [("enabled", .jbool true), ("server_name", .str "x.com"),
      ("reality", .obj (JObj.ofList
        [("enabled", .jbool true), ("public_key", .str "KEY"),
         ("short_id", .str "SID")])),
      ("utls", .obj (JObj.ofList
        [("enabled", .jbool true), ("fingerprint", .str "firefox")]))])),
   ("transport", .obj (JObj.ofList
     [("type", .str "ws"), ("path", .str "/p"),
      ("headers", .obj (JObj.ofList [("Host", .str "w.com")]))]))]

/-! ## Theorems -/

/-! ### Helper lemmas -/

theorem mapOpt_b64Index_eq_none {l : List Char} {c : Char} (hc : c ∈ l)
    (hn : b64Index c = none) : mapOpt b64Index l = none := by
  induction l with
  | nil => cases hc
  | cons x xs ih =>
    rcases List.mem_cons.mp hc with h | h
    · subst h; simp [mapOpt, hn]
    · cases hx : b64Index x <;> simp [mapOpt, hx, ih h]

theorem mem_dropWhile_of_mem {α : Type} {p : α → Bool} {l : List α} {c : α}
    (hc : c ∈ l) (hp : p c = false) : c ∈ l.dropWhile p := by
  induction l with
  | nil => cases hc
  | cons x xs ih =>
    by_cases hx : p x
    · rw [List.dropWhile_cons_of_pos hx]
      rcases List.mem_cons.mp hc with h | h
      · subst h; rw [hp] at hx; cases hx
      · exact ih h
    · rw [List.dropWhile_cons_of_neg hx]; exact hc

theorem mem_dropTrailingEq {l : List Char} {c : Char} (hc : c ∈ l)
    (hne : c ≠ '=') : c ∈ dropTrailingEq l := by
  unfold dropTrailingEq
  rw [List.mem_reverse]
  exact mem_dropWhile_of_mem (List.mem_reverse.mpr hc) (by simpa using hne)

/-- Invariant of the `Clean` stack (in reverse order, head = top): never
an empty or `.` segment, and all `..` segments sit at the bottom. -/
def StackInv (S : List String) : Prop :=
  (∀ s ∈ S, s ≠ "" ∧ s ≠ ".") ∧
  ∃ a b, S = a ++ b ∧ (∀ s ∈ a, s ≠ "..") ∧ (∀ s ∈ b, s = "..")

theorem stackInv_nil : StackInv [] :=
  ⟨by simp, [], [], by simp, by simp, by simp⟩

theorem cleanStep_skip (rooted : Bool) (S : List String) {seg : String}
    (h : seg = "" ∨ seg = ".") : cleanStep rooted S seg = S := by
  unfold cleanStep
  rw [if_pos h]

theorem cleanStep_plain (rooted : Bool) (S : List String) {seg : String}
    (h1 : ¬(seg = "" ∨ seg = ".")) (h2 : seg ≠ "..") :
    cleanStep rooted S seg = seg :: S := by
  unfold cleanStep
  rw [if_neg h1, if_neg h2]

theorem cleanStep_dotdot_nil (rooted : Bool) :
    cleanStep rooted [] ".." = if rooted then [] else [".."] := by
  unfold cleanStep
  rw [if_neg (by decide), if_pos rfl]

theorem cleanStep_dotdot_cons (rooted : Bool) (top : String) (rest : List String) :
    cleanStep rooted (top :: rest) ".." =
      if top = ".." then ".." :: top :: rest else rest := by
  unfold cleanStep
  rw [if_neg (by decide), if_pos rfl]

theorem stackInv_step (rooted : Bool) (S : List String) (seg : String)
    (h : StackInv S) : StackInv (cleanStep rooted S seg) := by
  obtain ⟨hchar, a, b, hab, hano, hbdots⟩ := h
  by_cases h1 : seg = "" ∨ seg = "."
  · rw [cleanStep_skip rooted S h1]
    exact ⟨hchar, a, b, hab, hano, hbdots⟩
  by_cases h2 : seg = ".."
  · subst h2
    cases S with
    | nil =>
      rw [cleanStep_dotdot_nil]
      cases rooted
      · rw [if_neg (by decide)]
        refine ⟨?_, [], [".."], by simp, by simp, by simp⟩
        intro s hs
        simp only [List.mem_singleton] at hs
        subst hs
        exact ⟨by decide, by decide⟩
      · rw [if_pos rfl]
        exact stackInv_nil
    | cons top rest =>
      rw [cleanStep_dotdot_cons]
      by_cases htop : top = ".."
      · rw [if_pos htop]
        have ha : a = [] := by
          cases a with
          | nil => rfl
          | cons x a' =>
            exfalso
            have hx : top = x := by
              have hh := congrArg List.head? hab
              simpa using hh
            exact hano x (by simp) (hx ▸ htop)
        subst ha
        simp only [List.nil_append] at hab
        refine ⟨?_, [], ".." :: top :: rest, by simp, by simp, ?_⟩
        · intro s hs
          rcases List.mem_cons.mp hs with h | h
          · subst h; exact ⟨by decide, by decide⟩
          · exact hchar s h
        · intro s hs
          rcases List.mem_cons.mp hs with h | h
          · exact h
          · exact hbdots s (hab ▸ h)
      · rw [if_neg htop]
        cases a with
        | nil =>
          exfalso
          simp only [List.nil_append] at hab
          exact htop (hbdots top (by rw [← hab]; simp))
        | cons x a' =>
          have hx : top = x := by
            have hh := congrArg List.head? hab
            simpa using hh
          have htail : rest = a' ++ b := by
            have : top :: rest = x :: (a' ++ b) := by simpa using hab
            injection this with _ h'
          refine ⟨?_, a', b, htail, fun s hs => hano s (by simp [hs]), hbdots⟩
          intro s hs
          exact hchar s (List.mem_cons_of_mem top hs)
  · rw [cleanStep_plain rooted S h1 h2]
    push_neg at h1
    refine ⟨?_, seg :: a, b, by rw [hab]; rfl, ?_, hbdots⟩
    · intro s hs
      rcases List.mem_cons.mp hs with h | h
      · subst h; exact h1
      · exact hchar s h
    · intro s hs
      rcases List.mem_cons.mp hs with h | h
      · subst h; exact h2
      · exact hano s h

theorem stackInv_foldl (rooted : Bool) (l : List String) :
    ∀ S, StackInv S → StackInv (l.foldl (cleanStep rooted) S) := by
  induction l with
  | nil => intro S h; exact h
  | cons x xs ih =>
    intro S h
    exact ih _ (stackInv_step rooted S x h)

/-- Every segment of a cleaned list is a real name or `..`: never empty,
never `.`. -/
theorem cleanSegs_no_empty_dot (rooted : Bool) (l : List String) :
    ∀ s ∈ cleanSegs rooted l, s ≠ "" ∧ s ≠ "." := by
  intro s hs
  obtain ⟨hchar, _⟩ := stackInv_foldl rooted l [] stackInv_nil
  exact hchar s (List.mem_reverse.mp hs)

/-- In a cleaned list all `..` segments are leading, so if the head is
not `..` there is no `..` at all. -/
theorem cleanSegs_no_dotdot (rooted : Bool) (l : List String)
    (hhead : (cleanSegs rooted l).head? ≠ some "..") :
    ∀ s ∈ cleanSegs rooted l, s ≠ ".." := by
  obtain ⟨_, a, b, hab, hano, hbdots⟩ := stackInv_foldl rooted l [] stackInv_nil
  intro s hs
  unfold cleanSegs at hs hhead
  rw [hab] at hs hhead
  rw [List.reverse_append] at hs hhead
  cases hb : b with
  | nil =>
    subst hb
    simp only [List.reverse_nil, List.nil_append] at hs
    exact hano s (List.mem_reverse.mp hs)
  | cons y b' =>
    exfalso
    apply hhead
    subst hb
    have hbrev : (y :: b').reverse ≠ [] := by simp
    rw [List.head?_append_of_ne_nil _ hbrev]
    cases hr : (y :: b').reverse with
    | nil => exact absurd hr hbrev
    | cons z zs =>
      have hz : z ∈ y :: b' := by
        rw [← List.mem_reverse, hr]; simp
      simp [hbdots z hz]

/-- Appending segments that are genuine names to a path and cleaning is
the same as cleaning first and then appending. -/
theorem foldl_cleanStep_plain (rooted : Bool) (ys : List String)
    (hys : ∀ y ∈ ys, y ≠ "" ∧ y ≠ "." ∧ y ≠ "..") :
    ∀ S, ys.foldl (cleanStep rooted) S = ys.reverse ++ S := by
  induction ys with
  | nil => intro S; simp
  | cons y ys ih =>
    intro S
    obtain ⟨h1, h2, h3⟩ := hys y (by simp)
    have hstep : cleanStep rooted S y = y :: S := by
      unfold cleanStep
      rw [if_neg (by simp [h1, h2]), if_neg h3]
    rw [List.foldl_cons, hstep, ih (fun z hz => hys z (by simp [hz]))]
    simp

theorem cleanSegs_append_plain (rooted : Bool) (xs ys : List String)
    (hys : ∀ y ∈ ys, y ≠ "" ∧ y ≠ "." ∧ y ≠ "..") :
    cleanSegs rooted (xs ++ ys) = cleanSegs rooted xs ++ ys := by
  unfold cleanSegs
  rw [List.foldl_append, foldl_cleanStep_plain rooted ys hys]
  simp

/-- A successful `safeJoin` lands strictly under the extraction root. -/
theorem safeJoin_ok_strictlyUnder {root rel : String} {p : GoPath}
    (h : safeJoin root rel = .ok p) : strictlyUnder (parsePath root) p := by
  dsimp only [safeJoin] at h
  split_ifs at h with h1 h2 h3 h4
  -- the contradictory error branches are closed by split_ifs; the ok
  -- branch remains
  injection h with h'
  subst h'
  have hplain : ∀ s ∈ (cleanPath (parsePath rel)).segs,
      s ≠ "" ∧ s ≠ "." ∧ s ≠ ".." := by
    intro s hs
    obtain ⟨hne, hnd⟩ := cleanSegs_no_empty_dot (parsePath rel).abs (parsePath rel).segs s hs
    exact ⟨hne, hnd, cleanSegs_no_dotdot (parsePath rel).abs (parsePath rel).segs h3 s hs⟩
  refine ⟨rfl, (cleanPath (parsePath rel)).segs, ?_, h1, hplain⟩
  show cleanSegs (parsePath root).abs
    ((parsePath root).segs ++ (cleanPath (parsePath rel)).segs) = _
  rw [cleanSegs_append_plain _ _ _ hplain]
  rfl

/-- C1 (counterexample): the invariant "`current_node` is non-none iff
`status = Connected`" fails on a reachable state: a successful Connect to
`srvA` followed by a Connect whose store lookup fails leaves the engine
in `status = Error` with `current_node` still set — `Engine.Connect`
never clears `currentNode` on its error paths. -/
theorem c1_invariant_counterexample :
    Reachable engineAfterFailedReconnect ∧
    engineAfterFailedReconnect.status = Status.error ∧
    engineAfterFailedReconnect.currentNode = some srvA ∧
    ¬(engineAfterFailedReconnect.currentNode ≠ none ↔
      engineAfterFailedReconnect.status = Status.connected) := by
  refine ⟨?_, by decide, by decide, by decide⟩
  exact Reachable.step
    (Reachable.step Reachable.init (EngineStep.connect _ envOkA srvA.id))
    (EngineStep.connect _ envLookupFail srvA.id)

/-- C1 (amended): only the forward direction holds — in every reachable
state, `status = Connected` implies `current_node` is non-none (Connect
sets `currentNode` just before publishing Connected, and Disconnect
clears both); the converse fails because a failing Connect issued while
Connected leaves `current_node` set with `status = Error`. -/
theorem c1_connected_implies_node {s : EngineState} (h : Reachable s) :
    s.status = Status.connected → s.currentNode ≠ none := by
  induction h with
  | init => intro hs; exact absurd hs (by decide)
  | step _ st _ =>
    cases st with
    | connect env serverID =>
      cases hl : env.lookup with
      | none => simp [connect, hl]
      | some server => simp only [connect, hl] ; split_ifs <;> simp
    | disconnect g => simp [disconnect]

/-- C1 (witness): the amended implication applied to the concrete
reachable Connected state. -/
theorem c1_connected_implies_node_witness :
    Reachable engineConnectedA ∧ engineConnectedA.currentNode ≠ none := by
  have hr : Reachable engineConnectedA :=
    Reachable.step Reachable.init (EngineStep.connect _ envOkA srvA.id)
  exact ⟨hr, c1_connected_implies_node hr (by decide)⟩

/-- C2 (counterexample): `Engine.Connect` issued while Connected with the
id of the current node is not a no-op — even when every step succeeds it
writes a fresh config and spawns a new child (non-empty event trace), and
when the lookup fails it leaves status Error instead of returning
Connected. -/
theorem c2_counterexample :
    Reachable engineConnectedA ∧
    engineConnectedA.status = Status.connected ∧
    engineConnectedA.currentNode = some srvA ∧
    (connect engineConnectedA envReconnectA srvA.id).events ≠ [] ∧
    (connect engineConnectedA envLookupFail srvA.id).state.status = Status.error := by
  exact ⟨Reachable.step Reachable.init (EngineStep.connect _ envOkA srvA.id),
    by decide, by decide, by decide, by decide⟩

/-- C2 (amended): `Engine.Connect` never inspects the prior status or
current node: its event trace, resulting status and return value are the
same from any prior state, it performs no disconnect first (no proxy-off,
no interrupt of the previous child), and it runs the full pipeline even
for the currently connected server. -/
theorem c2_connect_ignores_prior_state (e e' : EngineState) (env : ConnectEnv)
    (serverID : String) :
    (connect e env serverID).events = (connect e' env serverID).events ∧
    (connect e env serverID).state.status = (connect e' env serverID).state.status ∧
    (connect e env serverID).ok = (connect e' env serverID).ok ∧
    Event.proxyOff ∉ (connect e env serverID).events ∧
    Event.interruptChild ∉ (connect e env serverID).events := by
  cases hl : env.lookup with
  | none => simp [connect, hl]
  | some server => simp only [connect, hl] ; split_ifs <;> simp

/-- C3 (counterexample): when the readiness gate fails, `Engine.Connect`
kills and reaps the child and sets Error, but it does not delete the
config file it wrote: no remove event occurs and `lastConfigPath` still
names the file. -/
theorem c3_counterexample :
    (connect initEngine envReadyFail srvA.id).state.status = Status.error ∧
    Event.killChild ∈ (connect initEngine envReadyFail srvA.id).events ∧
    Event.writeConfig "cfg3" ∈ (connect initEngine envReadyFail srvA.id).events ∧
    Event.removeConfig "cfg3" ∉ (connect initEngine envReadyFail srvA.id).events ∧
    (connect initEngine envReadyFail srvA.id).state.lastConfigPath = "cfg3" := by
  decide

/-- C3 (amended): on a readiness-gate failure Connect stops the child
(kill then reap) and sets `status = Error`, but leaves the config file in
place: the trace contains no remove event and `lastConfigPath` keeps the
path written by this Connect (it is removed only by a later
Disconnect). -/
theorem c3_ready_failure_keeps_config (e : EngineState) (env : ConnectEnv)
    (serverID : String) (srv : ServerNode)
    (hl : env.lookup = some srv) (hu : srv.uri ≠ "") (hg : env.genOk = true)
    (hw : env.writeOk = true) (hb : env.binFound = true) (hs : env.startOk = true)
    (hr : env.readyOk = false) :
    (connect e env serverID).events =
      [Event.writeConfig env.cfgPath, Event.spawn, Event.killChild, Event.reapChild] ∧
    (connect e env serverID).state.status = Status.error ∧
    (connect e env serverID).state.processLive = false ∧
    (connect e env serverID).state.lastConfigPath = env.cfgPath ∧
    Event.removeConfig env.cfgPath ∉ (connect e env serverID).events := by
  simp [connect, hl, hu, hg, hw, hb, hs, hr]

/-- C3 (witness): the amended statement at the concrete readiness-failure
environment. -/
theorem c3_ready_failure_keeps_config_witness :
    envReadyFail.lookup = some srvA ∧ srvA.uri ≠ "" ∧
    (connect initEngine envReadyFail "a").state.lastConfigPath = "cfg3" :=
  ⟨rfl, by decide,
    (c3_ready_failure_keeps_config initEngine envReadyFail "a" srvA rfl (by decide)
      rfl rfl rfl rfl rfl).2.2.2.1⟩

/-- C7: `Engine.Disconnect`, from any state, clears the system proxy as
its very first effect — strictly before any signal reaches the child —
then interrupts the child exactly when one is attached, kills it exactly
when it does not exit within the grace period, removes the recorded
config file, clears `currentNode` and publishes Disconnected. -/
theorem c7_disconnect_order (e : EngineState) (g : Bool) :
    (disconnect e g).events.head? = some Event.proxyOff ∧
    (∀ i, ((disconnect e g).events[i]? = some Event.interruptChild ∨
           (disconnect e g).events[i]? = some Event.killChild) → 0 < i) ∧
    (Event.interruptChild ∈ (disconnect e g).events ↔ e.processLive = true) ∧
    (Event.killChild ∈ (disconnect e g).events ↔ (e.processLive = true ∧ g = false)) ∧
    (e.lastConfigPath ≠ "" → Event.removeConfig e.lastConfigPath ∈ (disconnect e g).events) ∧
    (disconnect e g).state.currentNode = none ∧
    (disconnect e g).state.status = Status.disconnected ∧
    (disconnect e g).state.lastConfigPath = "" ∧
    (disconnect e g).state.processLive = false ∧
    (disconnect e g).ok = true := by
  obtain ⟨st, node, pl, cfg⟩ := e
  cases pl <;> cases g <;> by_cases hc : cfg = "" <;>
    simp [disconnect, hc] <;>
    intro i h <;> cases i <;> simp_all

/-- C7 (witness): the ordering statement applied at the concrete
Connected state with a wedged child. -/
theorem c7_disconnect_order_witness :
    (disconnect engineConnectedA false).events.head? = some Event.proxyOff ∧
    Event.interruptChild ∈ (disconnect engineConnectedA false).events ∧
    Event.killChild ∈ (disconnect engineConnectedA false).events :=
  ⟨(c7_disconnect_order engineConnectedA false).1,
   ((c7_disconnect_order engineConnectedA false).2.2.1).mpr (by decide),
   ((c7_disconnect_order engineConnectedA false).2.2.2.1).mpr (by decide)⟩

/-- C4 (counterexample): for the C4 REALITY URI the emitted outbound is
not the object the spec lists — the code additionally emits
`"enabled": true` inside `tls.reality` and `tls.utls`, so the claimed
"no other fields are present" fails. -/
theorem c4_counterexample : vlessOutbound c4url ≠ Except.ok c4claimedOutbound := by
  decide

/-- C4 (amended): for the C4 REALITY URI the builder succeeds and the
emitted outbound equals, ignoring field order, the spec's object with an
additional `"enabled": true` field inside both `tls.reality` and
`tls.utls`. -/
theorem c4_reality_outbound : vlessOutbound c4url = Except.ok c4actualOutbound := by
  decide

/-- C5 (counterexample): `c5encoded` is the (unpadded) URL-safe base64
encoding of the one-line URI list `c5plain`, yet the parser yields no
servers for it — `tryDecodeBase64` only attempts the standard alphabet —
while the decoded plain form yields one server. -/
theorem c5_counterexample :
    specDecodeURLSafe c5encoded = some c5plain ∧
    parseContent c5plain = [c5node] ∧
    parseContent c5encoded = [] := by
  decide

/-- C5 (amended): the parser attempts only the standard base64 alphabet
(padded and unpadded); for every trimmed body with no URI line, the
presence of a URL-safe character (`-` or `_`, after the decoders' CR/LF
stripping) makes both decode attempts fail, so `ParseContent` yields no
servers instead of the decoded list. -/
theorem c5_urlsafe_not_decoded (content : String)
    (htrim : goTrimSpace content = content)
    (hextract : extractURIList content = [])
    (hbad : ∃ c ∈ stripCRLF content, c = '-' ∨ c = '_') :
    parseContent content = [] := by
  obtain ⟨c, hcmem, hcval⟩ := hbad
  have hcnone : b64Index c = none := by
    rcases hcval with h | h <;> subst h <;> decide
  have hcne : c ≠ '=' := by
    rcases hcval with h | h <;> subst h <;> decide
  have hne : content ≠ "" := by
    intro h
    rw [h] at hcmem
    simp [stripCRLF] at hcmem
  have hstd : decodeStdPadded content = none := by
    dsimp only [decodeStdPadded]
    split_ifs with h1 h2
    · rfl
    · rfl
    · rw [mapOpt_b64Index_eq_none (mem_dropTrailingEq hcmem hcne) hcnone]
  have hraw : decodeRawStd content = none := by
    dsimp only [decodeRawStd]
    split_ifs with h1
    · rfl
    · rw [mapOpt_b64Index_eq_none hcmem hcnone]
  unfold parseContent
  rw [htrim]
  rw [if_neg hne, hextract]
  simp only [if_pos rfl, tryDecodeBase64, htrim, if_neg hne, hstd, hraw]
  simp

/-- C2 (amended, witness): the state-independence statement applied at
two concrete prior states. -/
theorem c2_connect_ignores_prior_state_witness :
    (connect engineConnectedA envReconnectA "a").events
      = (connect initEngine envReconnectA "a").events :=
  (c2_connect_ignores_prior_state engineConnectedA initEngine envReconnectA "a").1

/-- C5 (witness): the amended statement applied at the concrete URL-safe
input `c5encoded`. -/
theorem c5_urlsafe_not_decoded_witness :
    goTrimSpace c5encoded = c5encoded ∧
    extractURIList c5encoded = [] ∧
    parseContent c5encoded = [] :=
  ⟨by decide, by decide,
    c5_urlsafe_not_decoded c5encoded (by decide) (by decide)
      ⟨'_', by decide, by decide⟩⟩

/-- C9 (counterexample): a 201 response is in the 2xx range, yet
`subscription.Fetch` fails with the status error. -/
theorem c9_counterexample :
    (200 ≤ 201 ∧ 201 < 300) ∧ goFetch true 201 true "body" = .error "status 201" := by
  decide

/-- C9 (amended): with the transport and body read succeeding, `Fetch`
returns the raw body exactly when the status is 200, and otherwise —
including every other 2xx code — fails with the status error carrying
the code. -/
theorem c9_fetch_only_200 (statusCode : Nat) (body : String) :
    goFetch true statusCode true body =
      if statusCode = 200 then .ok body
      else .error ("status " ++ toString statusCode) := by
  by_cases h : statusCode = 200 <;> simp [goFetch, h]

/-- C10: when the disk write fails, `Store.AddSubscription` returns the
error but the new subscription has already been appended to the in-memory
list, and a subsequent `GetSubscriptions` includes it: the error branch
does not restore the prior state. -/
theorem c10_failed_write_keeps_append (st : StoreState) (name url : String)
    (now : Int) :
    (addSubscription st name url now false).2 = .error "write subscriptions.json" ∧
    (addSubscription st name url now false).1.subscriptions
      = st.subscriptions ++ [mkSubscription st name url now] ∧
    mkSubscription st name url now
      ∈ getSubscriptions (addSubscription st name url now false).1 := by
  simp [addSubscription, getSubscriptions]

/-- C6: archive extraction is safe — an entry whose cleaned path is
absolute or starts with a `..` segment is always rejected by `safeJoin`
(and a rejection aborts the walk before anything of that entry is
written), and every file `extractZip` actually writes resolves to a path
strictly under the extraction root: its cleaned segments extend the
cleaned root by a non-empty run of genuine names. -/
theorem c6_extraction_safety (root : String) (entries : List ZipEntry) :
    (∀ p ∈ (extractZip root entries).1, strictlyUnder (parsePath root) p) ∧
    (∀ rel, ((cleanPath (parsePath rel)).abs = true ∨
        (cleanPath (parsePath rel)).segs.head? = some "..") →
      ∃ msg, safeJoin root rel = Except.error msg) := by
  constructor
  · induction entries with
    | nil => intro p hp; simp [extractZip] at hp
    | cons e rest ih =>
      intro p hp
      by_cases hn : e.name = ""
      · rw [extractZip, if_pos hn] at hp
        exact ih p hp
      · cases hs : safeJoin root e.name with
        | error msg =>
          rw [extractZip, if_neg hn, hs] at hp
          simp at hp
        | ok dst =>
          rw [extractZip, if_neg hn, hs] at hp
          dsimp only at hp
          by_cases hd : e.isDir
          · rw [if_pos hd] at hp
            exact ih p hp
          · rw [if_neg hd] at hp
            rcases List.mem_cons.mp hp with h | h
            · subst h; exact safeJoin_ok_strictlyUnder hs
            · exact ih p h
  · intro rel hrel
    dsimp only [safeJoin]
    split_ifs with h1 h2 h3 h4
    · exact ⟨_, rfl⟩
    · exact ⟨_, rfl⟩
    · exact ⟨_, rfl⟩
    · rcases hrel with h | h
      · exact absurd h h2
      · exact absurd h h3
    · exact ⟨_, rfl⟩

/-- C6 (witness): the safety statement applied to a concrete archive with
one good entry and one traversal entry: the good file lands strictly
under the root and the traversal entry is rejected. -/
theorem c6_extraction_safety_witness :
    ((⟨true, ["tmp", "x", "a", "b.txt"]⟩ : GoPath) ∈
      (extractZip "/tmp/x" [⟨"a/b.txt", false⟩, ⟨"../evil", false⟩]).1) ∧
    strictlyUnder (parsePath "/tmp/x") ⟨true, ["tmp", "x", "a", "b.txt"]⟩ ∧
    (∃ msg, safeJoin "/tmp/x" "../evil" = Except.error msg) :=
  ⟨by decide,
   (c6_extraction_safety "/tmp/x" [⟨"a/b.txt", false⟩, ⟨"../evil", false⟩]).1
     _ (by decide),
   (c6_extraction_safety "/tmp/x" []).2 "../evil" (Or.inr (by decide))⟩

theorem wantSuffix_linux (arch : String) :
    wantSuffix "linux" arch = .ok ("linux-" ++ arch ++ ".tar.gz") := by
  unfold wantSuffix
  rw [if_neg (by decide), if_pos rfl]

theorem wantSuffix_darwin (arch : String) :
    wantSuffix "darwin" arch = .ok ("darwin-" ++ arch ++ ".tar.gz") := by
  unfold wantSuffix
  rw [if_neg (by decide), if_neg (by decide), if_pos rfl]

theorem selectAsset_suffix {osName arch : String} {rel : Release} {a : Asset}
    {ws : String} (hw : wantSuffix osName arch = .ok ws)
    (hsel : selectAsset osName arch rel = .ok a) :
    goHasSuffix a.name ws = true := by
  dsimp only [selectAsset] at hsel
  rw [hw] at hsel
  dsimp only at hsel
  cases hf : rel.assets.find? (fun a =>
      !goContains a.name "legacy" && goHasSuffix a.name ws &&
      goHasPrefix a.name "sing-box-" &&
      goContains a.name (String.mk (rel.tagName.data.drop 1))) with
  | some x =>
    rw [hf] at hsel
    injection hsel with h'
    subst h'
    have hx := List.find?_some hf
    simp only [Bool.and_eq_true] at hx
    exact hx.1.1.2
  | none =>
    rw [hf] at hsel
    cases hg : rel.assets.find? (fun a => goHasSuffix a.name ws) with
    | some x =>
      rw [hg] at hsel
      injection hsel with h'
      subst h'
      simpa using List.find?_some hg
    | none =>
      rw [hg] at hsel
      exact absurd hsel (by simp)

theorem not_zip_of_targz {s : String} (h : ".tar.gz".data <:+ s.data) :
    goHasSuffix s ".zip" = false := by
  by_contra hcon
  rw [Bool.not_eq_false] at hcon
  unfold goHasSuffix at hcon
  have hz : ".zip".data <:+ s.data := List.isSuffixOf_iff_suffix.mp hcon
  have : ".zip".data <:+ ".tar.gz".data :=
    List.suffix_of_suffix_length_le hz h (by decide)
  exact absurd this (by decide)

/-- C8 (amended): on Linux and macOS `selectAsset` does choose the asset
ending in the platform `.tar.gz` suffix, but `InstallLatest` then always
fails with the unsupported-archive error on it — only `.zip` archives
are extracted, so installation never proceeds on those platforms. -/
theorem c8_targz_always_unsupported (osName arch : String) (rel : Release)
    (env : InstallEnv) (a : Asset)
    (hos : osName = "linux" ∨ osName = "darwin")
    (htag : rel.tagName ≠ "")
    (hdl : env.downloadOk = true) (hmk : env.mkTempOk = true)
    (hsel : selectAsset osName arch rel = .ok a) :
    installLatest osName arch rel env =
      .error ("unsupported archive type: " ++ a.name) := by
  have hws : ∃ ws, wantSuffix osName arch = .ok ws ∧ ".tar.gz".data <:+ ws.data := by
    rcases hos with h | h <;> subst h
    · exact ⟨_, wantSuffix_linux arch,
        by rw [String.data_append]; exact List.suffix_append _ _⟩
    · exact ⟨_, wantSuffix_darwin arch,
        by rw [String.data_append]; exact List.suffix_append _ _⟩
  obtain ⟨ws, hw, htar⟩ := hws
  have hsuff : goHasSuffix a.name ws = true := selectAsset_suffix hw hsel
  unfold goHasSuffix at hsuff
  have htarname : ".tar.gz".data <:+ a.name.data :=
    htar.trans (List.isSuffixOf_iff_suffix.mp hsuff)
  have hzip : goHasSuffix a.name ".zip" = false := not_zip_of_targz htarname
  dsimp only [installLatest]
  rw [if_neg htag, hsel]
  dsimp only
  rw [hdl, hmk, hzip]
  simp

/-- C8 (amended, witness): the amended statement at the concrete linux
release. -/
theorem c8_targz_always_unsupported_witness :
    selectAsset "linux" "amd64" linuxRel =
      Except.ok { name := "sing-box-1.12.0-linux-amd64.tar.gz",
                  browserDownloadURL := "https://example.invalid/a" } ∧
    installLatest "linux" "amd64" linuxRel installEnvOk =
      Except.error "unsupported archive type: sing-box-1.12.0-linux-amd64.tar.gz" :=
  ⟨by decide,
    c8_targz_always_unsupported "linux" "amd64" linuxRel installEnvOk
      { name := "sing-box-1.12.0-linux-amd64.tar.gz",
        browserDownloadURL := "https://example.invalid/a" }
      (Or.inl rfl) (by decide) rfl rfl (by decide)⟩

/-- C8 (counterexample): for a linux release whose only asset is the
matching `linux-amd64.tar.gz`, `selectAsset` does choose it, but
`InstallLatest` then fails with the unsupported-archive error instead of
proceeding — only `.zip` archives are extracted. -/
theorem c8_counterexample :
    selectAsset "linux" "amd64" linuxRel =
      Except.ok { name := "sing-box-1.12.0-linux-amd64.tar.gz",
                  browserDownloadURL := "https://example.invalid/a" } ∧
    installLatest "linux" "amd64" linuxRel installEnvOk =
      Except.error "unsupported archive type: sing-box-1.12.0-linux-amd64.tar.gz" := by
  decide

end Nekkus
